import Mathlib

/-!
Verification of the `utf32` package: a bidirectional codec between UTF-32
code-point sequences and UTF-8 byte sequences (`src/utf32.go`).

Shallow embedding conventions:
* A Go `UTF32` (uint32) value is a `Nat`; wherever the Go code can wrap
  (the decoder's uint32 accumulation), we reduce modulo `2^32` explicitly.
* A Go byte is a `Nat`; claims about byte input quantify over lists whose
  elements are `< 256`, matching Go's `string` indexing.
* A Go `(value, error)` pair becomes `List Nat × Option ConvError`, with
  `none` for the nil error and the first component carrying exactly what
  the Go function returns (the empty string / nil slice on error paths).
* The decoder loop advances its index by a data-dependent amount, so it is
  embedded with a fuel parameter initialized to the input length; one unit
  of fuel is spent per decoded character, mirroring the Go `for` loop where
  the loop counter increments once per iteration.
-/

/-- 2^32, the modulus of Go's uint32 arithmetic. -/
def u32size : Nat := 4294967296

/-- Bound constant `UniSurHighStart` from the source. -/
def UniSurHighStart : Nat := 0xd800

/-- Bound constant `UniSurLowEnd` from the source. -/
def UniSurLowEnd : Nat := 0xdfff

/-- Bound constant `UniMaxLegalUTF32` from the source. -/
def UniMaxLegalUTF32 : Nat := 0x0010ffff

/-- Mask constant `byteMask` from the source. -/
def byteMask : Nat := 0xbf

/-- Mask constant `byteMark` from the source. -/
def byteMark : Nat := 0x80

/-- The single error of the package, `ErrInvalidSource`. -/
inductive ConvError where
  | invalidSource
deriving DecidableEq, Repr

/-- The 256-entry table `trailingBytesForUTF8` from the source, transcribed
literally: indexed by the first byte of a UTF-8 sequence, it gives the number
of trailing bytes that are supposed to follow it. -/
def trailingBytesForUTF8Table : List Nat := [
  0, 0, 0, 0, 0, 0, 0, 0, 0, 0, 0, 0, 0, 0, 0, 0, 0, 0, 0, 0, 0, 0, 0, 0, 0, 0, 0, 0, 0, 0, 0, 0,
  0, 0, 0, 0, 0, 0, 0, 0, 0, 0, 0, 0, 0, 0, 0, 0, 0, 0, 0, 0, 0, 0, 0, 0, 0, 0, 0, 0, 0, 0, 0, 0,
  0, 0, 0, 0, 0, 0, 0, 0, 0, 0, 0, 0, 0, 0, 0, 0, 0, 0, 0, 0, 0, 0, 0, 0, 0, 0, 0, 0, 0, 0, 0, 0,
  0, 0, 0, 0, 0, 0, 0, 0, 0, 0, 0, 0, 0, 0, 0, 0, 0, 0, 0, 0, 0, 0, 0, 0, 0, 0, 0, 0, 0, 0, 0, 0,
  0, 0, 0, 0, 0, 0, 0, 0, 0, 0, 0, 0, 0, 0, 0, 0, 0, 0, 0, 0, 0, 0, 0, 0, 0, 0, 0, 0, 0, 0, 0, 0,
  0, 0, 0, 0, 0, 0, 0, 0, 0, 0, 0, 0, 0, 0, 0, 0, 0, 0, 0, 0, 0, 0, 0, 0, 0, 0, 0, 0, 0, 0, 0, 0,
  1, 1, 1, 1, 1, 1, 1, 1, 1, 1, 1, 1, 1, 1, 1, 1, 1, 1, 1, 1, 1, 1, 1, 1, 1, 1, 1, 1, 1, 1, 1, 1,
  2, 2, 2, 2, 2, 2, 2, 2, 2, 2, 2, 2, 2, 2, 2, 2, 3, 3, 3, 3, 3, 3, 3, 3, 4, 4, 4, 4, 5, 5, 5, 5]

/-- Table lookup `trailingBytesForUTF8[b]`; in Go the index is a byte, so it
is always in range and the default is never used. -/
def trailingBytesForUTF8 (b : Nat) : Nat :=
  trailingBytesForUTF8Table.getD b 0

/-- The table `offsetsFromUTF8` from the source: magic values subtracted from
a buffer value during UTF-8 conversion, indexed by the trailing-byte count. -/
def offsetsFromUTF8Table : List Nat :=
  [0x00000000, 0x00003080, 0x000E2080, 0x03C82080, 0xFA082080, 0x82082080]

/-- Table lookup `offsetsFromUTF8[extra]`. -/
def offsetsFromUTF8 (extra : Nat) : Nat :=
  offsetsFromUTF8Table.getD extra 0

/-- The table `firstByteMark` from the source: the mask OR-ed into the first
byte, indexed by the total number of bytes written. -/
def firstByteMarkTable : List Nat :=
  [0x00, 0x00, 0xC0, 0xE0, 0xF0, 0xF8, 0xFC]

/-- Table lookup `firstByteMark[n]`. -/
def firstByteMark (n : Nat) : Nat :=
  firstByteMarkTable.getD n 0

/-- `lookupBytesToWrite` from the source: the number of UTF-8 bytes required
for a code point, or the `InvalidSource` error (modelled as `none`, the `-1`
of the Go pair being dead). -/
def lookupBytesToWrite (ch : Nat) : Option Nat :=
  if ch < 0x80 then some 1
  else if ch < 0x800 then some 2
  else if ch < 0x10000 then some 3
  else if ch ≤ UniMaxLegalUTF32 then some 4
  else none

/-- One continuation byte of the encoder:
`byte((int(ch) | byteMark) & byteMask)`. -/
def contByte (ch : Nat) : Nat :=
  ((ch ||| byteMark) &&& byteMask) % 256

/-- The bytes the encoder's `switch bytesToWrite` writes for one code point,
in output order (lead byte first).  The Go code writes the trailing bytes
right-to-left, shifting `ch` right by 6 after each, so the byte at offset
`k ≥ 1` is `contByte (ch >>> (6 * (n - 1 - k)))` and the lead byte is
`byte(int(ch >>> (6 * (n - 1))) | int(firstByteMark[n]))`.  `bytesToWrite`
is always 1–4 here, so the default branch is dead. -/
def encodeChar (ch : Nat) (n : Nat) : List Nat :=
  match n with
  | 1 => [(ch ||| firstByteMark 1) % 256]
  | 2 => [((ch >>> 6) ||| firstByteMark 2) % 256, contByte ch]
  | 3 => [((ch >>> 12) ||| firstByteMark 3) % 256, contByte (ch >>> 6), contByte ch]
  | 4 => [((ch >>> 18) ||| firstByteMark 4) % 256, contByte (ch >>> 12),
          contByte (ch >>> 6), contByte ch]
  | _ => []

/-- `ConvertUTF32toUTF8` from the source.  The Go loop appends the encoding
of each code point in order; on the first invalid code point it returns
`("", ErrInvalidSource)`, modelled as `([], some .invalidSource)`. -/
def convertUTF32toUTF8 : List Nat → List Nat × Option ConvError
  | [] => ([], none)
  | ch :: rest =>
    if UniSurHighStart ≤ ch ∧ ch ≤ UniSurLowEnd then ([], some ConvError.invalidSource)
    else
      match lookupBytesToWrite ch with
      | none => ([], some ConvError.invalidSource)
      | some n =>
        match convertUTF32toUTF8 rest with
        | (_, some e) => ([], some e)
        | (bs, none) => (encodeChar ch n ++ bs, none)

/-- The decoder's accumulated value for one character.  The Go loop starts
from `ch = 0`, and for each of the `extra` leading bytes (the lead byte and
all continuation bytes but the last) does `ch += src[i]; ch <<= 6` in uint32
arithmetic; it then adds the last byte and subtracts
`offsetsFromUTF8[extra]`, still in uint32 arithmetic. -/
def decodeCharVal (lead : Nat) (conts : List Nat) : Nat :=
  ((lead :: conts).dropLast.foldl
      (fun acc b => (((acc + b) % u32size) <<< 6) % u32size) 0
    + conts.getLastD lead
    + (u32size - offsetsFromUTF8 conts.length)) % u32size

/-- The loop of `ConvertUTF8toUTF32`, with fuel standing for the remaining
iterations of the Go `for` loop (one unit per decoded character; the
zero-fuel branch is unreachable when the fuel starts at the input length,
because each character consumes at least one byte). -/
def decodeLoop : Nat → List Nat → List Nat × Option ConvError
  | _, [] => ([], none)
  | 0, _ :: _ => ([], some ConvError.invalidSource)
  | fuel + 1, b :: rest =>
    let extra := trailingBytesForUTF8 b
    if rest.length < extra then ([], some ConvError.invalidSource)
    else
      let ch := decodeCharVal b (rest.take extra)
      if UniMaxLegalUTF32 < ch ∨ (UniSurHighStart ≤ ch ∧ ch ≤ UniSurLowEnd) then
        ([], some ConvError.invalidSource)
      else
        match decodeLoop fuel (rest.drop extra) with
        | (_, some e) => ([], some e)
        | (cs, none) => (ch :: cs, none)

/-- `ConvertUTF8toUTF32` from the source: the byte-cursor loop, on error
returning `(nil, ErrInvalidSource)`, modelled as `([], some .invalidSource)`. -/
def convertUTF8toUTF32 (src : List Nat) : List Nat × Option ConvError :=
  decodeLoop src.length src

/-- How the decoder's scan over a byte sequence ends: cleanly, at a
truncated sequence, at a surrogate accumulated value, or at an accumulated
value above `UniMaxLegalUTF32`.  This mirrors `decodeLoop` step for step and
is used to state claims about what the decoder encounters mid-scan. -/
inductive ScanStop where
  | ok
  | truncated
  | surrogate
  | overMax
deriving DecidableEq, Repr

/-- The outcome of the decoder's scan, mirroring `decodeLoop`. -/
def scanOutcome : Nat → List Nat → ScanStop
  | _, [] => ScanStop.ok
  | 0, _ :: _ => ScanStop.ok
  | fuel + 1, b :: rest =>
    let extra := trailingBytesForUTF8 b
    if rest.length < extra then ScanStop.truncated
    else
      let ch := decodeCharVal b (rest.take extra)
      if UniSurHighStart ≤ ch ∧ ch ≤ UniSurLowEnd then ScanStop.surrogate
      else if UniMaxLegalUTF32 < ch then ScanStop.overMax
      else scanOutcome fuel (rest.drop extra)

/-- The per-code-point UTF-8 byte length as the spec states it by range. -/
def utf8Len (ch : Nat) : Nat :=
  if ch < 0x80 then 1
  else if ch < 0x800 then 2
  else if ch < 0x10000 then 3
  else 4

/-- A legal code point: below `0x110000` and not a UTF-16 surrogate. -/
def LegalScalar (ch : Nat) : Prop :=
  ch < 0x110000 ∧ ¬(0xD800 ≤ ch ∧ ch ≤ 0xDFFF)

instance : DecidablePred LegalScalar := fun ch => by
  unfold LegalScalar; infer_instance

/-! ### Arithmetic characterizations of the encoder's byte computations -/

/-- OR-ing the continuation mark into a 6-bit payload is addition. -/
lemma byteMark_lor_small : ∀ z < 64, 128 ||| z = 128 + z := by decide

/-- `contByte` keeps the low 6 bits and sets the continuation mark. -/
lemma contByte_eq (x : Nat) : contByte x = 128 + x % 64 := by
  have hlt : (x ||| 128) &&& 191 < 256 :=
    lt_of_le_of_lt Nat.and_le_right (by norm_num)
  have h : contByte x = (x ||| 128) &&& 191 := by
    unfold contByte byteMark byteMask
    omega
  rw [h, ← byteMark_lor_small (x % 64) (Nat.mod_lt x (by norm_num))]
  apply Nat.eq_of_testBit_eq
  intro i
  have h191 : (191 : Nat) = 2 ^ 7 ||| (2 ^ 6 - 1) := by decide
  have h128 : (128 : Nat) = 2 ^ 7 := by norm_num
  have h64 : (64 : Nat) = 2 ^ 6 := by norm_num
  rw [h191, h128, h64]
  simp only [Nat.testBit_or, Nat.testBit_and, Nat.testBit_mod_two_pow,
    Nat.testBit_two_pow, Nat.testBit_two_pow_sub_one]
  by_cases h7 : 7 = i <;> by_cases h6 : i < 6 <;> simp [h7, h6]

lemma lead1_lor : ∀ a < 128, (a ||| 0) % 256 = a := by decide

lemma lead2_lor : ∀ a < 32, (a ||| 192) % 256 = 192 + a := by decide

lemma lead3_lor : ∀ a < 16, (a ||| 224) % 256 = 224 + a := by decide

lemma lead4_lor : ∀ a < 8, (a ||| 240) % 256 = 240 + a := by decide

lemma encodeChar_one (ch : Nat) (h : ch < 0x80) : encodeChar ch 1 = [ch] := by
  simp only [encodeChar, firstByteMark, firstByteMarkTable, List.getD_cons_succ,
    List.getD_cons_zero]
  rw [lead1_lor ch h]

lemma encodeChar_two (ch : Nat) (h : ch < 0x800) :
    encodeChar ch 2 = [192 + ch / 64, 128 + ch % 64] := by
  simp only [encodeChar, firstByteMark, firstByteMarkTable, List.getD_cons_succ,
    List.getD_cons_zero, Nat.shiftRight_eq_div_pow, contByte_eq]
  norm_num
  rw [lead2_lor (ch / 64) (by omega)]

lemma encodeChar_three (ch : Nat) (h : ch < 0x10000) :
    encodeChar ch 3 = [224 + ch / 4096, 128 + ch / 64 % 64, 128 + ch % 64] := by
  simp only [encodeChar, firstByteMark, firstByteMarkTable, List.getD_cons_succ,
    List.getD_cons_zero, Nat.shiftRight_eq_div_pow, contByte_eq]
  norm_num
  rw [lead3_lor (ch / 4096) (by omega)]

lemma encodeChar_four (ch : Nat) (h : ch ≤ 0x10FFFF) :
    encodeChar ch 4 =
      [240 + ch / 262144, 128 + ch / 4096 % 64, 128 + ch / 64 % 64, 128 + ch % 64] := by
  simp only [encodeChar, firstByteMark, firstByteMarkTable, List.getD_cons_succ,
    List.getD_cons_zero, Nat.shiftRight_eq_div_pow, contByte_eq]
  norm_num
  rw [lead4_lor (ch / 262144) (by omega)]

/-! ### The trailing-byte table on the byte shapes the encoder emits -/

lemma trail_ascii : ∀ a < 128, trailingBytesForUTF8 a = 0 := by decide

lemma trail_two : ∀ a < 32, trailingBytesForUTF8 (192 + a) = 1 := by decide

lemma trail_three : ∀ a < 16, trailingBytesForUTF8 (224 + a) = 2 := by decide

lemma trail_four : ∀ a < 8, trailingBytesForUTF8 (240 + a) = 3 := by decide

/-! ### The decoder's accumulated value on the encoder's output -/

lemma decodeCharVal_one (ch : Nat) (h : ch < 0x80) : decodeCharVal ch [] = ch := by
  unfold decodeCharVal u32size offsetsFromUTF8 offsetsFromUTF8Table
  simp [List.dropLast]
  omega

lemma decodeCharVal_two (ch : Nat) (h : ch < 0x800) :
    decodeCharVal (192 + ch / 64) [128 + ch % 64] = ch := by
  unfold decodeCharVal u32size offsetsFromUTF8 offsetsFromUTF8Table
  simp [List.dropLast, Nat.shiftLeft_eq]
  omega

lemma decodeCharVal_three (ch : Nat) (h : ch < 0x10000) :
    decodeCharVal (224 + ch / 4096) [128 + ch / 64 % 64, 128 + ch % 64] = ch := by
  unfold decodeCharVal u32size offsetsFromUTF8 offsetsFromUTF8Table
  simp [List.dropLast, Nat.shiftLeft_eq]
  omega

lemma decodeCharVal_four (ch : Nat) (h : ch ≤ 0x10FFFF) :
    decodeCharVal (240 + ch / 262144)
      [128 + ch / 4096 % 64, 128 + ch / 64 % 64, 128 + ch % 64] = ch := by
  unfold decodeCharVal u32size offsetsFromUTF8 offsetsFromUTF8Table
  simp [List.dropLast, Nat.shiftLeft_eq]
  omega

/-! ### Fuel irrelevance for the decoder loop -/

lemma decodeLoop_fuel (f1 : Nat) : ∀ (f2 : Nat) (src : List Nat),
    src.length ≤ f1 → src.length ≤ f2 → decodeLoop f1 src = decodeLoop f2 src := by
  induction f1 with
  | zero =>
    intro f2 src h1 h2
    cases src with
    | nil => cases f2 <;> rfl
    | cons b rest => simp at h1
  | succ f1 ih =>
    intro f2 src h1 h2
    cases src with
    | nil => cases f2 <;> rfl
    | cons b rest =>
      cases f2 with
      | zero => simp at h2
      | succ f2 =>
        simp only [decodeLoop]
        have hlen1 : (rest.drop (trailingBytesForUTF8 b)).length ≤ f1 := by
          simp only [List.length_drop]
          simp only [List.length_cons] at h1
          omega
        have hlen2 : (rest.drop (trailingBytesForUTF8 b)).length ≤ f2 := by
          simp only [List.length_drop]
          simp only [List.length_cons] at h2
          omega
        rw [ih f2 _ hlen1 hlen2]

/-! ### The decoder consumes exactly one encoded character at a time -/

lemma decode_enc_one (ch : Nat) (h : ch < 0x80) (rest cs : List Nat)
    (hrest : convertUTF8toUTF32 rest = (cs, none)) :
    convertUTF8toUTF32 (encodeChar ch 1 ++ rest) = (ch :: cs, none) := by
  rw [encodeChar_one ch h]
  show decodeLoop (rest.length + 1) (ch :: rest) = _
  simp only [decodeLoop]
  rw [trail_ascii ch (by omega)]
  rw [if_neg (by omega)]
  simp only [List.take_zero, List.drop_zero]
  rw [decodeCharVal_one ch h]
  rw [if_neg (by unfold UniMaxLegalUTF32 UniSurHighStart UniSurLowEnd; omega)]
  have hrest' : decodeLoop rest.length rest = (cs, none) := hrest
  rw [hrest']

lemma decode_enc_two (ch : Nat) (h : ch < 0x800) (rest cs : List Nat)
    (hrest : convertUTF8toUTF32 rest = (cs, none)) :
    convertUTF8toUTF32 (encodeChar ch 2 ++ rest) = (ch :: cs, none) := by
  rw [encodeChar_two ch h]
  show decodeLoop (rest.length + 1 + 1) ((192 + ch / 64) :: (128 + ch % 64) :: rest) = _
  simp only [decodeLoop]
  rw [trail_two (ch / 64) (by omega)]
  rw [if_neg (by simp)]
  simp only [List.take_succ_cons, List.take_zero, List.drop_succ_cons, List.drop_zero]
  rw [decodeCharVal_two ch h]
  rw [if_neg (by unfold UniMaxLegalUTF32 UniSurHighStart UniSurLowEnd; omega)]
  have hrest' : decodeLoop rest.length rest = (cs, none) := hrest
  rw [decodeLoop_fuel (rest.length + 1) rest.length rest (by omega) le_rfl, hrest']

lemma decode_enc_three (ch : Nat) (h : ch < 0x10000)
    (hns : ¬(0xD800 ≤ ch ∧ ch ≤ 0xDFFF)) (rest cs : List Nat)
    (hrest : convertUTF8toUTF32 rest = (cs, none)) :
    convertUTF8toUTF32 (encodeChar ch 3 ++ rest) = (ch :: cs, none) := by
  rw [encodeChar_three ch h]
  show decodeLoop (rest.length + 1 + 1 + 1)
    ((224 + ch / 4096) :: (128 + ch / 64 % 64) :: (128 + ch % 64) :: rest) = _
  simp only [decodeLoop]
  rw [trail_three (ch / 4096) (by omega)]
  rw [if_neg (by simp)]
  simp only [List.take_succ_cons, List.take_zero, List.drop_succ_cons, List.drop_zero]
  rw [decodeCharVal_three ch h]
  rw [if_neg (by unfold UniMaxLegalUTF32 UniSurHighStart UniSurLowEnd; omega)]
  have hrest' : decodeLoop rest.length rest = (cs, none) := hrest
  rw [decodeLoop_fuel (rest.length + 1 + 1) rest.length rest (by omega) le_rfl, hrest']

lemma decode_enc_four (ch : Nat) (hlo : 0x10000 ≤ ch) (h : ch ≤ 0x10FFFF)
    (rest cs : List Nat) (hrest : convertUTF8toUTF32 rest = (cs, none)) :
    convertUTF8toUTF32 (encodeChar ch 4 ++ rest) = (ch :: cs, none) := by
  rw [encodeChar_four ch h]
  show decodeLoop (rest.length + 1 + 1 + 1 + 1)
    ((240 + ch / 262144) :: (128 + ch / 4096 % 64) :: (128 + ch / 64 % 64) :: (128 + ch % 64) :: rest) = _
  simp only [decodeLoop]
  rw [trail_four (ch / 262144) (by omega)]
  rw [if_neg (by simp)]
  simp only [List.take_succ_cons, List.take_zero, List.drop_succ_cons, List.drop_zero]
  rw [decodeCharVal_four ch h]
  rw [if_neg (by unfold UniMaxLegalUTF32 UniSurHighStart UniSurLowEnd; omega)]
  have hrest' : decodeLoop rest.length rest = (cs, none) := hrest
  rw [decodeLoop_fuel (rest.length + 1 + 1 + 1) rest.length rest (by omega) le_rfl, hrest']

/-! ### Round trip -/

lemma lookupBytesToWrite_eq (ch : Nat) (h : ch ≤ 0x10FFFF) :
    lookupBytesToWrite ch = some (utf8Len ch) := by
  unfold lookupBytesToWrite utf8Len UniMaxLegalUTF32
  split_ifs <;> first | rfl | omega

lemma roundTrip_aux (s : List Nat) (h : ∀ ch ∈ s, LegalScalar ch) :
    (convertUTF32toUTF8 s).2 = none ∧
    convertUTF8toUTF32 (convertUTF32toUTF8 s).1 = (s, none) := by
  induction s with
  | nil => exact ⟨rfl, rfl⟩
  | cons ch rest ih =>
    obtain ⟨hlt, hns⟩ : LegalScalar ch := h ch (by simp)
    obtain ⟨he, hd⟩ := ih (fun c hc => h c (by simp [hc]))
    rcases hpair : convertUTF32toUTF8 rest with ⟨bs, err⟩
    rw [hpair] at he hd
    simp only at he hd
    subst he
    have hsur : ¬(UniSurHighStart ≤ ch ∧ ch ≤ UniSurLowEnd) := by
      unfold UniSurHighStart UniSurLowEnd
      exact hns
    have hn := lookupBytesToWrite_eq ch (by omega)
    have henc : convertUTF32toUTF8 (ch :: rest) = (encodeChar ch (utf8Len ch) ++ bs, none) := by
      simp only [convertUTF32toUTF8]
      rw [if_neg hsur, hn, hpair]
    have hdec : convertUTF8toUTF32 (encodeChar ch (utf8Len ch) ++ bs) = (ch :: rest, none) := by
      unfold utf8Len
      split_ifs with h1 h2 h3
      · exact decode_enc_one ch h1 bs rest hd
      · exact decode_enc_two ch h2 bs rest hd
      · exact decode_enc_three ch h3 hns bs rest hd
      · exact decode_enc_four ch (by omega) (by omega) bs rest hd
    rw [henc]
    exact ⟨rfl, hdec⟩

/-! ### Encoder failure and length accounting -/

lemma lookupBytesToWrite_none (ch : Nat) (h : 0x110000 ≤ ch) :
    lookupBytesToWrite ch = none := by
  unfold lookupBytesToWrite UniMaxLegalUTF32
  split_ifs <;> first | rfl | omega

lemma encode_err (s : List Nat)
    (h : ∃ ch ∈ s, (0xD800 ≤ ch ∧ ch ≤ 0xDFFF) ∨ 0x110000 ≤ ch) :
    convertUTF32toUTF8 s = ([], some ConvError.invalidSource) := by
  induction s with
  | nil => simp at h
  | cons c rest ih =>
    simp only [convertUTF32toUTF8]
    by_cases hsur : UniSurHighStart ≤ c ∧ c ≤ UniSurLowEnd
    · rw [if_pos hsur]
    · rw [if_neg hsur]
      by_cases hbig : 0x110000 ≤ c
      · rw [lookupBytesToWrite_none c hbig]
      · have hrest : ∃ ch ∈ rest, (0xD800 ≤ ch ∧ ch ≤ 0xDFFF) ∨ 0x110000 ≤ ch := by
          rcases h with ⟨ch, hmem, hprop⟩
          rcases List.mem_cons.mp hmem with hc | hm
          · exfalso
            subst hc
            unfold UniSurHighStart UniSurLowEnd at hsur
            omega
          · exact ⟨ch, hm, hprop⟩
        rw [lookupBytesToWrite_eq c (by omega), ih hrest]

lemma encodeChar_len (c : Nat) : (encodeChar c (utf8Len c)).length = utf8Len c := by
  unfold utf8Len
  split_ifs <;> rfl

lemma utf8Len_le_four (c : Nat) : utf8Len c ≤ 4 := by
  unfold utf8Len
  split_ifs <;> omega

lemma encode_length (s : List Nat) : ∀ bs : List Nat,
    convertUTF32toUTF8 s = (bs, none) → bs.length = (s.map utf8Len).sum := by
  induction s with
  | nil =>
    intro bs hs
    simp only [convertUTF32toUTF8] at hs
    cases hs
    simp
  | cons c rest ih =>
    intro bs hs
    simp only [convertUTF32toUTF8] at hs
    by_cases hsur : UniSurHighStart ≤ c ∧ c ≤ UniSurLowEnd
    · rw [if_pos hsur] at hs
      cases hs
    · rw [if_neg hsur] at hs
      by_cases hbig : 0x110000 ≤ c
      · rw [lookupBytesToWrite_none c hbig] at hs
        cases hs
      · rw [lookupBytesToWrite_eq c (by omega)] at hs
        rcases hpair : convertUTF32toUTF8 rest with ⟨bs2, err⟩
        rw [hpair] at hs
        cases err with
        | some e => cases hs
        | none =>
          cases hs
          simp only [List.map_cons, List.sum_cons, List.length_append, encodeChar_len,
            ih bs2 hpair]

lemma sum_utf8Len_le (s : List Nat) : (s.map utf8Len).sum ≤ 4 * s.length := by
  induction s with
  | nil => simp
  | cons c rest ih =>
    simp only [List.map_cons, List.sum_cons, List.length_cons]
    have := utf8Len_le_four c
    omega

/-! ### Decoder failure on truncation and surrogates met during the scan -/

lemma decodeLoop_fail (fuel : Nat) : ∀ src : List Nat,
    scanOutcome fuel src = ScanStop.surrogate ∨ scanOutcome fuel src = ScanStop.truncated →
    decodeLoop fuel src = ([], some ConvError.invalidSource) := by
  induction fuel with
  | zero =>
    intro src h
    cases src with
    | nil => simp [scanOutcome] at h
    | cons b rest => rfl
  | succ fuel ih =>
    intro src h
    cases src with
    | nil => simp [scanOutcome] at h
    | cons b rest =>
      simp only [scanOutcome] at h
      simp only [decodeLoop]
      by_cases hc1 : rest.length < trailingBytesForUTF8 b
      · rw [if_pos hc1]
      · rw [if_neg hc1] at h ⊢
        by_cases hsur : UniSurHighStart ≤ decodeCharVal b (rest.take (trailingBytesForUTF8 b)) ∧
            decodeCharVal b (rest.take (trailingBytesForUTF8 b)) ≤ UniSurLowEnd
        · rw [if_pos (Or.inr hsur)]
        · rw [if_neg hsur] at h
          by_cases hover : UniMaxLegalUTF32 < decodeCharVal b (rest.take (trailingBytesForUTF8 b))
          · rw [if_pos hover] at h
            rcases h with h | h <;> cases h
          · rw [if_neg hover] at h
            rw [if_neg (by tauto)]
            rw [ih _ h]

/-! ### Error results carry no partial output -/

lemma encode_err_empty (s : List Nat) (h : (convertUTF32toUTF8 s).2.isSome) :
    (convertUTF32toUTF8 s).1 = [] := by
  cases s with
  | nil => simp [convertUTF32toUTF8] at h
  | cons c rest =>
    simp only [convertUTF32toUTF8] at h ⊢
    by_cases hsur : UniSurHighStart ≤ c ∧ c ≤ UniSurLowEnd
    · rw [if_pos hsur]
    · rw [if_neg hsur] at h ⊢
      cases hlook : lookupBytesToWrite c with
      | none => rfl
      | some n =>
        rw [hlook] at h
        rcases hpair : convertUTF32toUTF8 rest with ⟨bs2, err⟩
        rw [hpair] at h
        cases err with
        | some e => rfl
        | none => exact absurd h Bool.false_ne_true

lemma decode_err_empty (t : List Nat) (h : (convertUTF8toUTF32 t).2.isSome) :
    (convertUTF8toUTF32 t).1 = [] := by
  unfold convertUTF8toUTF32 at h ⊢
  cases t with
  | nil => simp [decodeLoop] at h
  | cons b rest =>
    simp only [decodeLoop] at h ⊢
    by_cases hc1 : rest.length < trailingBytesForUTF8 b
    · rw [if_pos hc1]
    · rw [if_neg hc1] at h ⊢
      by_cases hbad : UniMaxLegalUTF32 < decodeCharVal b (rest.take (trailingBytesForUTF8 b)) ∨
          (UniSurHighStart ≤ decodeCharVal b (rest.take (trailingBytesForUTF8 b)) ∧
            decodeCharVal b (rest.take (trailingBytesForUTF8 b)) ≤ UniSurLowEnd)
      · rw [if_pos hbad]
      · rw [if_neg hbad] at h ⊢
        rcases hpair : decodeLoop rest.length (rest.drop (trailingBytesForUTF8 b)) with ⟨cs, err⟩
        rw [hpair] at h
        cases err with
        | some e => rfl
        | none => exact absurd h Bool.false_ne_true

/-! ### Claims -/

/-- Claim C1: for every code-point sequence whose elements are all legal
(value below 0x110000 and outside the surrogate range [0xD800, 0xDFFF]),
encoding with ConvertUTF32toUTF8 succeeds, and decoding the resulting bytes
with ConvertUTF8toUTF32 succeeds and returns exactly the original sequence. -/
theorem c1_round_trip (s : List Nat)
    (h : ∀ ch ∈ s, ch < 0x110000 ∧ ¬(0xD800 ≤ ch ∧ ch ≤ 0xDFFF)) :
    (convertUTF32toUTF8 s).2 = none ∧
    convertUTF8toUTF32 (convertUTF32toUTF8 s).1 = (s, none) :=
  roundTrip_aux s h

theorem c1_round_trip_witness :
    (∀ ch ∈ ([0x48, 0xE9, 0x91D, 0x10FFFF] : List Nat),
        ch < 0x110000 ∧ ¬(0xD800 ≤ ch ∧ ch ≤ 0xDFFF)) ∧
    ((convertUTF32toUTF8 [0x48, 0xE9, 0x91D, 0x10FFFF]).2 = none ∧
      convertUTF8toUTF32 (convertUTF32toUTF8 [0x48, 0xE9, 0x91D, 0x10FFFF]).1 =
        ([0x48, 0xE9, 0x91D, 0x10FFFF], none)) :=
  ⟨by decide, c1_round_trip [0x48, 0xE9, 0x91D, 0x10FFFF] (by decide)⟩

/-- Claim C2: every input sequence containing a code point in
[0xD800, 0xDFFF] makes ConvertUTF32toUTF8 fail with InvalidSource, and every
byte sequence for which the decoder's accumulated value for some character
falls in [0xD800, 0xDFFF] (the scan reaching a surrogate) makes
ConvertUTF8toUTF32 fail with InvalidSource. -/
theorem c2_surrogate_rejection (s t : List Nat)
    (hs : ∃ ch ∈ s, 0xD800 ≤ ch ∧ ch ≤ 0xDFFF)
    (ht : scanOutcome t.length t = ScanStop.surrogate) :
    convertUTF32toUTF8 s = ([], some ConvError.invalidSource) ∧
    convertUTF8toUTF32 t = ([], some ConvError.invalidSource) := by
  refine ⟨encode_err s ?_, decodeLoop_fail t.length t (Or.inl ht)⟩
  rcases hs with ⟨ch, hm, hp⟩
  exact ⟨ch, hm, Or.inl hp⟩

theorem c2_surrogate_rejection_witness :
    ((∃ ch ∈ ([0xD800] : List Nat), 0xD800 ≤ ch ∧ ch ≤ 0xDFFF) ∧
      scanOutcome ([0xED, 0xA0, 0x80] : List Nat).length [0xED, 0xA0, 0x80] =
        ScanStop.surrogate) ∧
    (convertUTF32toUTF8 [0xD800] = ([], some ConvError.invalidSource) ∧
      convertUTF8toUTF32 [0xED, 0xA0, 0x80] = ([], some ConvError.invalidSource)) :=
  ⟨⟨by decide, by decide⟩,
    c2_surrogate_rejection [0xD800] [0xED, 0xA0, 0x80] (by decide) (by decide)⟩

/-- Claim C3: encoding [0x10FFFF] succeeds and decoding the resulting bytes
yields [0x10FFFF] again, while encoding any sequence containing 0x110000 or
any larger value fails with InvalidSource. -/
theorem c3_max_boundary (s : List Nat) (hs : ∃ ch ∈ s, 0x110000 ≤ ch) :
    convertUTF32toUTF8 [0x10FFFF] = ([0xF4, 0x8F, 0xBF, 0xBF], none) ∧
    convertUTF8toUTF32 [0xF4, 0x8F, 0xBF, 0xBF] = ([0x10FFFF], none) ∧
    convertUTF32toUTF8 s = ([], some ConvError.invalidSource) := by
  refine ⟨by decide, by decide, encode_err s ?_⟩
  rcases hs with ⟨ch, hm, hp⟩
  exact ⟨ch, hm, Or.inr hp⟩

theorem c3_max_boundary_witness :
    (∃ ch ∈ ([0x110000] : List Nat), 0x110000 ≤ ch) ∧
    (convertUTF32toUTF8 [0x10FFFF] = ([0xF4, 0x8F, 0xBF, 0xBF], none) ∧
      convertUTF8toUTF32 [0xF4, 0x8F, 0xBF, 0xBF] = ([0x10FFFF], none) ∧
      convertUTF32toUTF8 [0x110000] = ([], some ConvError.invalidSource)) :=
  ⟨by decide, c3_max_boundary [0x110000] (by decide)⟩

/-- Claim C4: whenever ConvertUTF32toUTF8 succeeds, the output byte length
equals the sum over the input code points of their byte-length n determined
by range: below 0x80 one byte, below 0x800 two, below 0x10000 three, and up
to 0x10FFFF four (utf8Len). -/
theorem c4_output_length (s bs : List Nat)
    (hs : convertUTF32toUTF8 s = (bs, none)) :
    bs.length = (s.map utf8Len).sum :=
  encode_length s bs hs

theorem c4_output_length_witness :
    convertUTF32toUTF8
        [0x68, 0x65, 0x6C, 0x6C, 0x6F, 0x20, 0x77, 0x6F, 0x72, 0x6C, 0x64,
          0xE9, 0x91D, 0x12345] =
      ([104, 101, 108, 108, 111, 32, 119, 111, 114, 108, 100, 195, 169, 224,
          164, 157, 240, 146, 141, 133], none) ∧
    ([104, 101, 108, 108, 111, 32, 119, 111, 114, 108, 100, 195, 169, 224,
        164, 157, 240, 146, 141, 133] : List Nat).length =
      (([0x68, 0x65, 0x6C, 0x6C, 0x6F, 0x20, 0x77, 0x6F, 0x72, 0x6C, 0x64,
          0xE9, 0x91D, 0x12345] : List Nat).map utf8Len).sum :=
  ⟨by decide,
    c4_output_length
      [0x68, 0x65, 0x6C, 0x6C, 0x6F, 0x20, 0x77, 0x6F, 0x72, 0x6C, 0x64,
        0xE9, 0x91D, 0x12345]
      [104, 101, 108, 108, 111, 32, 119, 111, 114, 108, 100, 195, 169, 224,
        164, 157, 240, 146, 141, 133]
      (by decide)⟩

/-- Claim C5: whenever the decoder's scan meets a lead byte claiming more
trailing bytes than remain in the input, ConvertUTF8toUTF32 fails with
InvalidSource; in particular a buffer holding only a 3-byte-sequence lead
byte (0xE0–0xEF), alone or followed by a single byte, fails. -/
theorem c5_truncation (t : List Nat) (b c : Nat)
    (ht : scanOutcome t.length t = ScanStop.truncated)
    (hb1 : 0xE0 ≤ b) (hb2 : b ≤ 0xEF) :
    convertUTF8toUTF32 t = ([], some ConvError.invalidSource) ∧
    convertUTF8toUTF32 [b] = ([], some ConvError.invalidSource) ∧
    convertUTF8toUTF32 [b, c] = ([], some ConvError.invalidSource) := by
  have htr : trailingBytesForUTF8 b = 2 := by
    have hb : b = 224 + (b - 224) := by omega
    rw [hb]
    exact trail_three (b - 224) (by omega)
  refine ⟨decodeLoop_fail t.length t (Or.inr ht), ?_, ?_⟩
  · show decodeLoop (0 + 1) (b :: []) = _
    simp only [decodeLoop, htr]
    rw [if_pos (by simp)]
  · show decodeLoop (0 + 1 + 1) (b :: c :: []) = _
    simp only [decodeLoop, htr]
    rw [if_pos (by simp)]

theorem c5_truncation_witness :
    (scanOutcome ([0xE0, 0x80] : List Nat).length [0xE0, 0x80] = ScanStop.truncated ∧
      0xE0 ≤ 0xE0 ∧ 0xE0 ≤ 0xEF) ∧
    (convertUTF8toUTF32 [0xE0, 0x80] = ([], some ConvError.invalidSource) ∧
      convertUTF8toUTF32 [0xE0] = ([], some ConvError.invalidSource) ∧
      convertUTF8toUTF32 [0xE0, 0x80] = ([], some ConvError.invalidSource)) :=
  ⟨⟨by decide, by decide, by decide⟩,
    c5_truncation [0xE0, 0x80] 0xE0 0x80 (by decide) (by decide) (by decide)⟩

/-- Claim C6: whenever either conversion returns an error it returns no
partial result: the encoder's string is empty and the decoder's code-point
list is empty, however many characters were processed before the failure. -/
theorem c6_atomic_failure (s t : List Nat)
    (hs : (convertUTF32toUTF8 s).2.isSome = true)
    (ht : (convertUTF8toUTF32 t).2.isSome = true) :
    (convertUTF32toUTF8 s).1 = [] ∧ (convertUTF8toUTF32 t).1 = [] :=
  ⟨encode_err_empty s hs, decode_err_empty t ht⟩

theorem c6_atomic_failure_witness :
    ((convertUTF32toUTF8 [0x44, 0xD800]).2.isSome = true ∧
      (convertUTF8toUTF32 [0x41, 0xFF]).2.isSome = true) ∧
    ((convertUTF32toUTF8 [0x44, 0xD800]).1 = [] ∧
      (convertUTF8toUTF32 [0x41, 0xFF]).1 = []) :=
  ⟨⟨by decide, by decide⟩, c6_atomic_failure [0x44, 0xD800] [0x41, 0xFF] (by decide) (by decide)⟩

/-- Claim C7: there is a byte sequence whose continuation byte lacks the
10xxxxxx pattern (0x41 shifted right by 6 is not 0b10) on which
ConvertUTF8toUTF32 succeeds anyway, producing a code point whose valid
encoding is not that byte sequence: no structural validation of
continuation bytes happens. -/
theorem c7_continuation_not_validated :
    (0x41 : Nat) >>> 6 ≠ 2 ∧
    convertUTF8toUTF32 [0xC2, 0x41] = ([0x41], none) ∧
    convertUTF32toUTF8 [0x41] = ([0x41], none) ∧
    ([0x41] : List Nat) ≠ [0xC2, 0x41] := by decide

/-- Claim C8: whenever ConvertUTF32toUTF8 succeeds, each code point
contributes at most 4 output bytes: the output length is at most 4 times
the number of input code points, so no 5- or 6-byte sequence is emitted
despite the permissive tables. -/
theorem c8_at_most_four_bytes (s bs : List Nat)
    (hs : convertUTF32toUTF8 s = (bs, none)) :
    bs.length ≤ 4 * s.length := by
  rw [encode_length s bs hs]
  exact sum_utf8Len_le s

theorem c8_at_most_four_bytes_witness :
    convertUTF32toUTF8 [0x41, 0x10FFFF] = ([0x41, 0xF4, 0x8F, 0xBF, 0xBF], none) ∧
    ([0x41, 0xF4, 0x8F, 0xBF, 0xBF] : List Nat).length ≤
      4 * ([0x41, 0x10FFFF] : List Nat).length :=
  ⟨by decide, c8_at_most_four_bytes [0x41, 0x10FFFF] [0x41, 0xF4, 0x8F, 0xBF, 0xBF] (by decide)⟩

/-- Claim C9: ConvertUTF32toUTF8 on the empty sequence returns the empty
byte string with no error, and ConvertUTF8toUTF32 on the empty byte string
returns the empty code-point sequence with no error. -/
theorem c9_empty_inputs :
    convertUTF32toUTF8 [] = ([], none) ∧ convertUTF8toUTF32 [] = ([], none) :=
  ⟨rfl, rfl⟩

/-- Claim C10: decode-then-encode does not round-trip: the overlong two-byte
sequence 0xC0 0x80 decodes without error to code point 0, which re-encodes
as the single byte 0x00, not as 0xC0 0x80. -/
theorem c10_overlong_accepted :
    convertUTF8toUTF32 [0xC0, 0x80] = ([0], none) ∧
    convertUTF32toUTF8 [0] = ([0x00], none) ∧
    ([0x00] : List Nat) ≠ [0xC0, 0x80] := by decide
